import Mathlib

/-!
Verification of the PorePy fracture-network meshing pipeline, as described by the
repository's tutorials and their specification.

The repository's own files are tutorial notebooks that exercise the library
(`pp.FractureNetwork2d`, `pp.FractureNetwork3d`, `pp.EllipticFracture`,
`pp.meshing.cart_grid`, `network.find_intersections`, `network.split_intersections`,
`network.mesh`).  The library implementation itself is not part of the repository
snapshot, so every operation below is modelled from the specification's description
of the pipeline (intersection finding, polygon splitting, grid-bucket assembly) and
is marked as such in its doc comment.  Floating-point coordinates are modelled by
exact rationals (for the executable part of the pipeline) and by real numbers (for
the area/interior statements about the polygon splitter).
-/

namespace PorePy

/-! ### Rational 3d geometry: points, polygons, plane predicates -/

/-- A 3d point with exact rational coordinates. -/
abbrev Point3 := ℚ × ℚ × ℚ

/-- Componentwise difference of two points. -/
def vsub (p q : Point3) : Point3 := (p.1 - q.1, p.2.1 - q.2.1, p.2.2 - q.2.2)

/-- Componentwise sum of two points. -/
def vadd (p q : Point3) : Point3 := (p.1 + q.1, p.2.1 + q.2.1, p.2.2 + q.2.2)

/-- Scalar multiple of a vector. -/
def smul3 (t : ℚ) (p : Point3) : Point3 := (t * p.1, t * p.2.1, t * p.2.2)

/-- Euclidean inner product. -/
def dot3 (p q : Point3) : ℚ := p.1 * q.1 + p.2.1 * q.2.1 + p.2.2 * q.2.2

/-- Cross product of two vectors. -/
def cross3 (p q : Point3) : Point3 :=
  (p.2.1 * q.2.2 - p.2.2 * q.2.1, p.2.2 * q.1 - p.1 * q.2.2, p.1 * q.2.1 - p.2.1 * q.1)

/-- Squared Euclidean distance between two points (squared segment length). -/
def dist2 (p q : Point3) : ℚ := dot3 (vsub p q) (vsub p q)

/-- Modelled from the spec: a `Polygon3D` is an ordered vertex list of a convex,
planar polygon (`pp.Fracture` stores the vertices as a 3xn array). -/
abbrev Polygon := List Point3

/-- Normal vector of the polygon's plane, from its first three vertices. -/
def polyNormal (P : Polygon) : Point3 :=
  match P with
  | a :: b :: c :: _ => cross3 (vsub b a) (vsub c a)
  | _ => (0, 0, 0)

/-- Base point of the polygon's plane (its first vertex). -/
def polyBase (P : Polygon) : Point3 := P.headD (0, 0, 0)

/-- Scaled signed distance of a query point from the polygon's plane. -/
def signedDist (P : Polygon) (q : Point3) : ℚ := dot3 (polyNormal P) (vsub q (polyBase P))

/-- The cyclic edge list of a polygon: each vertex paired with its successor. -/
def cyclicEdges {α : Type} (l : List α) : List (α × α) :=
  match l with
  | [] => []
  | a :: _ => l.zip (l.tail ++ [a])

/-! ### IntersectionFinder (modelled from the spec, section 4.1) -/

/-- Modelled from the spec: the shared geometry computed for a pair of polygons:
no intersection, a single point, a line segment, or the flagged coplanar-overlap
configuration (an explicit unsupported case per the spec's design notes). -/
inductive IntersectGeom where
  | nothing : IntersectGeom
  | point (p : Point3) : IntersectGeom
  | segment (a b : Point3) : IntersectGeom
  | coplanarFlag : IntersectGeom
deriving DecidableEq

/-- Modelled from the spec: the points where `Q`'s boundary crosses `P`'s plane,
one point for each edge of `Q` whose endpoints lie strictly on opposite sides. -/
def edgeCrossings (tol : ℚ) (P Q : Polygon) : List Point3 :=
  (cyclicEdges Q).filterMap (fun e =>
    let da := signedDist P e.1
    let db := signedDist P e.2
    if (tol < da ∧ db < -tol) ∨ (tol < db ∧ da < -tol) then
      some (vadd e.1 (smul3 (da / (da - db)) (vsub e.2 e.1)))
    else Option.none)

/-- Vertices of `Q` classified as on `P`'s plane (tolerance-aware comparison,
`|value| ≤ tol` rather than exact zero, per the spec's numeric semantics). -/
def onPlaneVertices (tol : ℚ) (P Q : Polygon) : List Point3 :=
  Q.filter (fun q => decide (|signedDist P q| ≤ tol))

/-- The point of `l` farthest from `u` (used to span the crossing chord). -/
def farthestFrom (u : Point3) (l : List Point3) : Point3 :=
  l.foldl (fun best x => if dist2 u best < dist2 u x then x else best) u

/-- Modelled from the spec: the chord in which `Q` meets `P`'s plane, spanned by
the on-plane vertices and the edge crossings of `Q`. -/
def chordOf (tol : ℚ) (P Q : Polygon) : Option (Point3 × Point3) :=
  match onPlaneVertices tol P Q ++ edgeCrossings tol P Q with
  | [] => Option.none
  | p :: rest => some (p, farthestFrom p rest)

/-- Inward normal of a polygon edge, within the polygon's plane. -/
def inwardNormal (P : Polygon) (e : Point3 × Point3) : Point3 :=
  cross3 (polyNormal P) (vsub e.2 e.1)

/-- Clip a segment against one halfplane given by the signed evaluation `g`. -/
def clipHalf (g : Point3 → ℚ) (uv : Point3 × Point3) : Option (Point3 × Point3) :=
  let du := g uv.1
  let dv := g uv.2
  if 0 ≤ du ∧ 0 ≤ dv then some uv
  else if du < 0 ∧ dv < 0 then Option.none
  else
    let w := vadd uv.1 (smul3 (du / (du - dv)) (vsub uv.2 uv.1))
    if du < 0 then some (w, uv.2) else some (uv.1, w)

/-- Modelled from the spec: clip the crossing chord to `P`'s extent by clipping
against every edge halfplane of `P` in turn. -/
def clipToPoly (P : Polygon) (uv0 : Option (Point3 × Point3)) : Option (Point3 × Point3) :=
  (cyclicEdges P).foldl
    (fun acc e => acc.bind (clipHalf (fun x => dot3 (inwardNormal P e) (vsub x e.1)))) uv0

/-- Modelled from the spec: the final tie-break of the IntersectionFinder: a
computed segment of squared length at most `tol ^ 2` is reported as a point
intersection, never as a segment. -/
def classifySeg (tol : ℚ) (uv : Option (Point3 × Point3)) : IntersectGeom :=
  match uv with
  | Option.none => IntersectGeom.nothing
  | some (u, v) =>
    if dist2 u v ≤ tol ^ 2 then IntersectGeom.point u else IntersectGeom.segment u v

/-- Modelled from the spec, section 4.1: pairwise polygon intersection.  Classify
`Q`'s vertices against `P`'s plane; all strictly on one side means no
intersection; all on-plane means the flagged coplanar configuration; otherwise
the chord where `Q` crosses the plane is clipped to `P` and classified with the
short-segment tie-break. -/
def intersectPolygons (tol : ℚ) (P Q : Polygon) : IntersectGeom :=
  if ∀ d ∈ Q.map (signedDist P), tol < d then IntersectGeom.nothing
  else if ∀ d ∈ Q.map (signedDist P), d < -tol then IntersectGeom.nothing
  else if ∀ d ∈ Q.map (signedDist P), |d| ≤ tol then IntersectGeom.coplanarFlag
  else classifySeg tol (clipToPoly P (chordOf tol P Q))

/-! ### FractureNetwork3d (modelled from the spec, sections 2 and 3) -/

/-- All unordered pairs of list elements, each pair listed once in list order. -/
def allPairs {α : Type} : List α → List (α × α)
  | [] => []
  | a :: t => t.map (fun b => (a, b)) ++ allPairs t

/-- Modelled from the spec: the complete pairwise intersection record set of a
polygon list, one record per unordered pair with nonempty shared geometry. -/
def computeIntersections (tol : ℚ) (polys : List Polygon) : List (Polygon × Polygon × IntersectGeom) :=
  (allPairs polys).filterMap (fun pq =>
    match intersectPolygons tol pq.1 pq.2 with
    | IntersectGeom.nothing => Option.none
    | g => some (pq.1, pq.2, g))

/-- Modelled from the spec: a 3d fracture network owns the polygon list (user
fractures plus injected boundary faces, each tagged boundary or interior), the
stored intersection records, and the network-wide tolerance. -/
structure FractureNetwork3d where
  fractures : List Polygon
  boundaryTags : List Bool
  intersections : List (Polygon × Polygon × IntersectGeom)
  tol : ℚ
deriving DecidableEq

/-- Modelled from the spec: `network.find_intersections` recomputes the complete
deduplicated intersection set from the current polygon snapshot (a pure function
of the polygons and the tolerance) and stores it on the network. -/
def find_intersections (n : FractureNetwork3d) : FractureNetwork3d :=
  ⟨n.fractures, n.boundaryTags, computeIntersections n.tol n.fractures, n.tol⟩

/-- A bounding box for the 3d domain, as in the tutorial's domain dictionaries. -/
structure Box3 where
  xmin : ℚ
  xmax : ℚ
  ymin : ℚ
  ymax : ℚ
  zmin : ℚ
  zmax : ℚ
deriving DecidableEq

/-- Modelled from the spec: the 6 faces of the bounding box, as polygons. -/
def boundaryPolygonsOfBox (b : Box3) : List Polygon :=
  [ [(b.xmin, b.ymin, b.zmin), (b.xmax, b.ymin, b.zmin), (b.xmax, b.ymax, b.zmin), (b.xmin, b.ymax, b.zmin)]
  , [(b.xmin, b.ymin, b.zmax), (b.xmax, b.ymin, b.zmax), (b.xmax, b.ymax, b.zmax), (b.xmin, b.ymax, b.zmax)]
  , [(b.xmin, b.ymin, b.zmin), (b.xmax, b.ymin, b.zmin), (b.xmax, b.ymin, b.zmax), (b.xmin, b.ymin, b.zmax)]
  , [(b.xmin, b.ymax, b.zmin), (b.xmax, b.ymax, b.zmin), (b.xmax, b.ymax, b.zmax), (b.xmin, b.ymax, b.zmax)]
  , [(b.xmin, b.ymin, b.zmin), (b.xmin, b.ymax, b.zmin), (b.xmin, b.ymax, b.zmax), (b.xmin, b.ymin, b.zmax)]
  , [(b.xmax, b.ymin, b.zmin), (b.xmax, b.ymax, b.zmin), (b.xmax, b.ymax, b.zmax), (b.xmax, b.ymin, b.zmax)] ]

/-- Modelled from the spec: `network.impose_external_boundary` appends the 6 faces
of the bounding box to the polygon set as fractures themselves, tagged as
boundary polygons. -/
def impose_external_boundary (n : FractureNetwork3d) (b : Box3) : FractureNetwork3d :=
  ⟨n.fractures ++ boundaryPolygonsOfBox b, n.boundaryTags ++ List.replicate 6 true,
    n.intersections, n.tol⟩

/-- Number of fractures owned by the network (boundary faces included). -/
def numFractures (n : FractureNetwork3d) : ℕ := n.fractures.length

/-- Modelled from the spec: the counts reported by `network.intersection_info`,
the fracture count (boundary planes included) and the intersection count. -/
def intersection_info (n : FractureNetwork3d) : ℕ × ℕ :=
  (numFractures n, n.intersections.length)

/-! ### Grids, GridBucket and the assembler (modelled from the spec, section 4.3) -/

/-- Modelled from the spec: a grid of the mixed-dimensional mesh, reduced to the
data the claims are about: its dimension and its cell count. -/
structure Grid where
  dim : ℕ
  num_cells : ℕ
deriving DecidableEq

/-- Modelled from the spec: a GridBucket is the grid list together with the
dimension edges, stored as index pairs (higher-dimensional grid first). -/
structure GridBucket where
  grids : List Grid
  edges : List (ℕ × ℕ)
deriving DecidableEq

/-- All ordered pairs drawn from two lists. -/
def listProd {α : Type} (l₁ l₂ : List α) : List (α × α) :=
  l₁.foldr (fun a acc => l₂.map (fun b => (a, b)) ++ acc) []

/-- The grid stored at an index (with a harmless default off the end). -/
def gridAt (gs : List Grid) (i : ℕ) : Grid := gs.getD i ⟨0, 0⟩

/-- Modelled from the spec: the assembler creates one dimension edge for every
ordered pair of grids of adjacent dimension that geometrically touch. -/
def buildEdges (gs : List Grid) (touch : ℕ → ℕ → Bool) : List (ℕ × ℕ) :=
  (listProd (List.range gs.length) (List.range gs.length)).filter
    (fun e => decide ((gridAt gs e.1).dim = (gridAt gs e.2).dim + 1) && touch e.1 e.2)

/-- Modelled from the spec: GridBucketAssembler, step (a) to (c): one Grid per
mesher-produced sub-grid, connected by dimension edges. -/
def assembleBucket (gs : List Grid) (touch : ℕ → ℕ → Bool) : GridBucket :=
  ⟨gs, buildEdges gs touch⟩

/-- Modelled from the spec: the face/cell match validation of the assembler:
every bordered pair of adjacent-dimensional grids must have at least one
matching face (the matching count is `m`). -/
def matchingValid (gs : List Grid) (touch : ℕ → ℕ → Bool) (m : ℕ → ℕ → ℕ) : Bool :=
  (listProd (List.range gs.length) (List.range gs.length)).all
    (fun e => !(decide ((gridAt gs e.1).dim = (gridAt gs e.2).dim + 1) && touch e.1 e.2)
      || decide (1 ≤ m e.1 e.2))

/-- Modelled from the spec: `network.mesh` with the `ensure_matching_face_cell`
toggle: when the toggle is on, a failed face/cell match validation is a
`MesherFailure` (no bucket); when it is explicitly turned off, validation is
skipped. -/
def mesh (gs : List Grid) (touch : ℕ → ℕ → Bool) (m : ℕ → ℕ → ℕ)
    (ensure_matching_face_cell : Bool) : Option GridBucket :=
  if (ensure_matching_face_cell && !matchingValid gs touch m) = true then Option.none
  else some (assembleBucket gs touch)

/-- Modelled from the spec: `network.mesh` as called without the toggle: the
source's default is `ensure_matching_face_cell=True`, so validation runs unless
the caller passes the explicit `False`. -/
def meshDefault (gs : List Grid) (touch : ℕ → ℕ → Bool) (m : ℕ → ℕ → ℕ) : Option GridBucket :=
  mesh gs touch m true

/-! ### The 2d pipeline: FractureNetwork2d.mesh and pp.meshing.cart_grid -/

/-- A 2d point with exact rational coordinates. -/
abbrev Point2 := ℚ × ℚ

/-- A 2d fracture: a line segment given by its two endpoints. -/
abbrev Segment2 := Point2 × Point2

/-- 2d cross product (signed parallelogram area). -/
def cross2 (u v : Point2) : ℚ := u.1 * v.2 - u.2 * v.1

/-- Componentwise difference of 2d points. -/
def sub2 (u v : Point2) : Point2 := (u.1 - v.1, u.2 - v.2)

/-- 2d inner product. -/
def dot2 (u v : Point2) : ℚ := u.1 * v.1 + u.2 * v.2

/-- Modelled from the spec: the 2d analogue of the IntersectionFinder for one
pair of fractures: the crossing point of two segments, when their supporting
lines cross inside both segments; parallel and collinear configurations yield
no isolated intersection point. -/
def segmentIntersection (s₁ s₂ : Segment2) : Option Point2 :=
  let r := sub2 s₁.2 s₁.1
  let s := sub2 s₂.2 s₂.1
  let d := cross2 r s
  if d = 0 then Option.none
  else
    let t := cross2 (sub2 s₂.1 s₁.1) s / d
    let u := cross2 (sub2 s₂.1 s₁.1) r / d
    if 0 ≤ t ∧ t ≤ 1 ∧ 0 ≤ u ∧ u ≤ 1 then
      some (s₁.1.1 + t * r.1, s₁.1.2 + t * r.2)
    else Option.none

/-- Modelled from the spec: the deduplicated isolated intersection points of all
fracture pairs of a 2d network. -/
def properIntersectionPoints (segs : List Segment2) : List Point2 :=
  ((allPairs segs).filterMap (fun e => segmentIntersection e.1 e.2)).dedup

/-- Whether a point lies on a segment (collinear and within both endpoints). -/
def onSegment (x : Point2) (s : Segment2) : Bool :=
  decide (cross2 (sub2 s.2 s.1) (sub2 x s.1) = 0)
    && decide (0 ≤ dot2 (sub2 x s.1) (sub2 s.2 s.1))
    && decide (0 ≤ dot2 (sub2 x s.2) (sub2 s.1 s.2))

/-- Modelled from the spec: assembly of the 2d mixed-dimensional GridBucket: one
matrix grid of dimension 2 (its cell count comes from the external mesher), one
dimension-1 grid per fracture, and one dimension-0 grid, with exactly one cell,
per isolated intersection point.  Dimension edges connect the matrix to every
fracture grid and each fracture grid to the point grids lying on its segment. -/
def bucket2d (matrixCells : ℕ) (segs : List Segment2) : GridBucket :=
  let ipts := properIntersectionPoints segs
  let k := segs.length
  assembleBucket
    (Grid.mk 2 matrixCells :: (segs.map (fun _ => Grid.mk 1 0) ++ ipts.map (fun _ => Grid.mk 0 1)))
    (fun i j =>
      if i = 0 then decide (1 ≤ j) && decide (j ≤ k)
      else decide (1 ≤ i) && decide (i ≤ k) && decide (k + 1 ≤ j)
        && onSegment (ipts.getD (j - k - 1) (0, 0)) (segs.getD (i - 1) ((0, 0), (0, 0))))

/-- The fracture segments encoded by a point array and a connection array, as in
`pp.FractureNetwork2d(p, e, domain)`. -/
def segmentsOfPointData (p : List Point2) (e : List (ℕ × ℕ)) : List Segment2 :=
  e.map (fun ij => (p.getD ij.1 (0, 0), p.getD ij.2 (0, 0)))

/-- The 2d domain bounding box, as in the tutorial's domain dictionary. -/
structure Domain2d where
  xmin : ℚ
  xmax : ℚ
  ymin : ℚ
  ymax : ℚ
deriving DecidableEq

/-- Modelled from the spec: `FractureNetwork2d(p, e, domain).mesh(mesh_args)`.
The domain box and the mesh-size arguments only steer the external mesher, which
is out of scope; its output is summarised by the matrix cell count. -/
def meshNetwork2d (p : List Point2) (e : List (ℕ × ℕ)) (dom : Domain2d)
    (matrixCells : ℕ) : GridBucket :=
  bucket2d matrixCells (segmentsOfPointData p e)

/-- Modelled from the spec: `pp.meshing.cart_grid(fracs, [nx, ny], physdims)` on
a 2d domain: a Cartesian matrix grid with `nx * ny` cells, one dimension-1 grid
per fracture and one single-cell dimension-0 grid per isolated fracture
crossing. -/
def cart_grid (fracs : List Segment2) (nx ny : ℕ) : GridBucket :=
  bucket2d (nx * ny) fracs

/-! ### EllipticFracture (modelled from the tutorial's description) -/

/-- A rational point on the unit circle for parameter `a` (the tangent
half-angle parametrization, standing in for the cosine/sine pair of an angle;
exact trigonometric placement is not representable over ℚ and is not what the
vertex-count claims are about). -/
def circlePoint (a : ℚ) : ℚ × ℚ :=
  ((1 - a ^ 2) / (1 + a ^ 2), (2 * a) / (1 + a ^ 2))

/-- Rotation of a 3d point about the z axis, by the circle point of `a`. -/
def rotZ (a : ℚ) (p : Point3) : Point3 :=
  ((circlePoint a).1 * p.1 - (circlePoint a).2 * p.2.1,
    (circlePoint a).2 * p.1 + (circlePoint a).1 * p.2.1, p.2.2)

/-- Rotation of a 3d point about the x axis, by the circle point of `a`. -/
def rotX (a : ℚ) (p : Point3) : Point3 :=
  (p.1, (circlePoint a).1 * p.2.1 - (circlePoint a).2 * p.2.2,
    (circlePoint a).2 * p.2.1 + (circlePoint a).1 * p.2.2)

/-- Modelled from the spec: `pp.EllipticFracture(center, major_axis, minor_axis,
major_axis_angle, strike_angle, dip_angle, num_points)`: the ellipse is
approximated by a polygon with exactly `num_points` vertices, sampled along the
ellipse boundary, rotated in plane by the major-axis angle, inclined by the
strike and dip rotations, and translated to the center. -/
def EllipticFracture (center : Point3) (major minor majorAxisAngle strikeAngle dipAngle : ℚ)
    (num_points : ℕ) : Polygon :=
  (List.range num_points).map (fun (i : ℕ) =>
    let t : ℚ := (i : ℚ) / (num_points : ℚ)
    vadd center
      (rotX dipAngle (rotZ strikeAngle
        (rotZ majorAxisAngle (major * (circlePoint t).1, minor * (circlePoint t).2, 0)))))

/-- Modelled from the spec: `pp.EllipticFracture` without the optional
`num_points` argument; the tutorial states that 16 points are then used. -/
def EllipticFractureDefault (center : Point3)
    (major minor majorAxisAngle strikeAngle dipAngle : ℚ) : Polygon :=
  EllipticFracture center major minor majorAxisAngle strikeAngle dipAngle 16

/-! ### PolygonSplitter (modelled from the spec, section 4.2)

The splitter works inside the plane of one polygon `P`: the constraint segments
collected for `P` (intersection curves with the other polygons and with the
boundary faces) induce a planar subdivision of `P`; the child polygons are the
faces of that subdivision.  We model the plane of `P` by `ℝ × ℝ`, the polygon by
a set `P`, each constraint by its supporting line, and the subdivision by the
cells cut out of `P` by the constraint lines.
-/

/-- The plane of one polygon, with real coordinates. -/
abbrev Plane := ℝ × ℝ

/-- A constraint line `a*x + b*y + c = 0` in the plane of a polygon: the
supporting line of one intersection segment collected for that polygon. -/
structure SplitLine where
  a : ℝ
  b : ℝ
  c : ℝ

/-- The affine evaluation of a constraint line at a point. -/
def lineEval (l : SplitLine) (p : Plane) : ℝ := l.a * p.1 + l.b * p.2 + l.c

/-- A nondegenerate line has a nonzero normal vector. -/
def SplitLine.Nondeg (l : SplitLine) : Prop := l.a ≠ 0 ∨ l.b ≠ 0

/-- The line with the opposite orientation. -/
def negLine (l : SplitLine) : SplitLine := ⟨-l.a, -l.b, -l.c⟩

/-- The closed halfplane on the nonnegative side of a line. -/
def sideGE (l : SplitLine) : Set Plane := {p | 0 ≤ lineEval l p}

/-- The closed halfplane on the nonpositive side of a line. -/
def sideLE (l : SplitLine) : Set Plane := {p | lineEval l p ≤ 0}

/-- The open halfplane strictly on the positive side of a line. -/
def sideGT (l : SplitLine) : Set Plane := {p | 0 < lineEval l p}

/-- The open halfplane strictly on the negative side of a line. -/
def sideLT (l : SplitLine) : Set Plane := {p | lineEval l p < 0}

/-- The points of a line. -/
def lineZero (l : SplitLine) : Set Plane := {p | lineEval l p = 0}

/-- Modelled from the spec: `network.split_intersections`, restricted to one
polygon: the child polygons of `P` are the closed cells cut out of `P` by the
constraint lines; each constraint line splits every current cell into its two
closed sides. -/
def splitCells (P : Set Plane) : List SplitLine → List (Set Plane)
  | [] => [P]
  | l :: L =>
    (splitCells P L).map (fun C => C ∩ sideGE l) ++ (splitCells P L).map (fun C => C ∩ sideLE l)

/-- The strictly open cells of the same subdivision, used to speak about the
interiors of the children: every constraint is strict. -/
def openCells (U : Set Plane) : List SplitLine → List (Set Plane)
  | [] => [U]
  | l :: L =>
    (openCells U L).map (fun C => C ∩ sideGT l) ++ (openCells U L).map (fun C => C ∩ sideLT l)

/-- The subdivision cells paired with their open companions: the first component
follows `splitCells`, the second follows `openCells`, in the same order. -/
def cellPairs (P U : Set Plane) : List SplitLine → List (Set Plane × Set Plane)
  | [] => [(P, U)]
  | l :: L =>
    (cellPairs P U L).map (fun C => (C.1 ∩ sideGE l, C.2 ∩ sideGT l))
      ++ (cellPairs P U L).map (fun C => (C.1 ∩ sideLE l, C.2 ∩ sideLT l))

/-! ### List helper lemmas -/

theorem mem_allPairs_append {α : Type} {a b : α} {l₁ l₂ : List α}
    (ha : a ∈ l₁) (hb : b ∈ l₂) : (a, b) ∈ allPairs (l₁ ++ l₂) := by
  induction l₁ with
  | nil => cases ha
  | cons x t ih =>
    rcases List.mem_cons.mp ha with h | h
    · subst h
      exact List.mem_append_left _ (List.mem_map_of_mem _ (List.mem_append_right _ hb))
    · exact List.mem_append_right _ (ih h)

theorem mem_listProd {α : Type} {a b : α} {l₁ l₂ : List α}
    (ha : a ∈ l₁) (hb : b ∈ l₂) : (a, b) ∈ listProd l₁ l₂ := by
  induction l₁ with
  | nil => cases ha
  | cons x t ih =>
    rcases List.mem_cons.mp ha with h | h
    · subst h
      exact List.mem_append_left _ (List.mem_map_of_mem _ hb)
    · exact List.mem_append_right _ (ih h)

/-! ### Claim theorems: the executable pipeline -/

/-- C5: running the IntersectionFinder twice on the same network yields the same
intersection set both times (order-independent, as a set; here the stored record
lists are even equal elementwise, because `find_intersections` is a pure
recomputation from the unchanged polygon snapshot and tolerance). -/
theorem find_intersections_idempotent (n : FractureNetwork3d) :
    ∀ I, I ∈ (find_intersections (find_intersections n)).intersections ↔
      I ∈ (find_intersections n).intersections :=
  fun _ => Iff.rfl

/-- C6: imposing a bounding-box domain injects the 6 faces of the box into the
polygon set as fractures themselves; they are counted by `intersection_info`
(3 user fractures report 9 fractures) and they participate in the pairwise
intersection detection (every user-fracture/boundary-face pair is among the
pairs scanned by `computeIntersections`, which maps over `allPairs` of the
network's fracture list). -/
theorem impose_boundary_injects_faces (n : FractureNetwork3d) (b : Box3)
    (h3 : numFractures n = 3) :
    (intersection_info (impose_external_boundary n b)).1 = 9 ∧
    (∀ f ∈ boundaryPolygonsOfBox b, f ∈ (impose_external_boundary n b).fractures) ∧
    (∀ f ∈ n.fractures, ∀ g ∈ boundaryPolygonsOfBox b,
      (f, g) ∈ allPairs (impose_external_boundary n b).fractures) := by
  have h3' : n.fractures.length = 3 := h3
  refine ⟨?_, ?_, ?_⟩
  · simp [intersection_info, numFractures, impose_external_boundary, boundaryPolygonsOfBox, h3']
  · intro f hf
    exact List.mem_append_right _ hf
  · intro f hf g hg
    exact mem_allPairs_append hf hg

/-- C6 witness: a concrete network of 3 user fractures and a concrete bounding
box; after boundary imposition the reported fracture count is 9 and all 6 box
faces are fractures of the network. -/
theorem impose_boundary_injects_faces_witness :
    numFractures (FractureNetwork3d.mk
      [ [(0, 0, 0), (1, 0, 0), (0, 1, 0)]
      , [(0, 0, 1), (1, 0, 1), (0, 1, 1)]
      , [(0, 0, 2), (1, 0, 2), (0, 1, 2)] ] [false, false, false] [] (1 / 100)) = 3 ∧
    ((intersection_info (impose_external_boundary (FractureNetwork3d.mk
      [ [(0, 0, 0), (1, 0, 0), (0, 1, 0)]
      , [(0, 0, 1), (1, 0, 1), (0, 1, 1)]
      , [(0, 0, 2), (1, 0, 2), (0, 1, 2)] ] [false, false, false] [] (1 / 100))
        (Box3.mk 0 1 0 1 0 1))).1 = 9 ∧
    (∀ f ∈ boundaryPolygonsOfBox (Box3.mk 0 1 0 1 0 1),
      f ∈ (impose_external_boundary (FractureNetwork3d.mk
        [ [(0, 0, 0), (1, 0, 0), (0, 1, 0)]
        , [(0, 0, 1), (1, 0, 1), (0, 1, 1)]
        , [(0, 0, 2), (1, 0, 2), (0, 1, 2)] ] [false, false, false] [] (1 / 100))
          (Box3.mk 0 1 0 1 0 1)).fractures) ∧
    (∀ f ∈ (FractureNetwork3d.mk
        [ [(0, 0, 0), (1, 0, 0), (0, 1, 0)]
        , [(0, 0, 1), (1, 0, 1), (0, 1, 1)]
        , [(0, 0, 2), (1, 0, 2), (0, 1, 2)] ] [false, false, false] [] (1 / 100)).fractures,
      ∀ g ∈ boundaryPolygonsOfBox (Box3.mk 0 1 0 1 0 1),
        (f, g) ∈ allPairs (impose_external_boundary (FractureNetwork3d.mk
          [ [(0, 0, 0), (1, 0, 0), (0, 1, 0)]
          , [(0, 0, 1), (1, 0, 1), (0, 1, 1)]
          , [(0, 0, 2), (1, 0, 2), (0, 1, 2)] ] [false, false, false] [] (1 / 100))
            (Box3.mk 0 1 0 1 0 1)).fractures)) :=
  ⟨rfl, impose_boundary_injects_faces _ _ rfl⟩

/-- C8: every dimension edge of an assembled GridBucket connects a grid of some
dimension `d + 1` to a grid of dimension `d`; in particular no two grids of the
same dimension are directly connected by a dimension edge. -/
theorem bucket_edges_adjacent_dims (gs : List Grid) (touch : ℕ → ℕ → Bool)
    (e : ℕ × ℕ) (he : e ∈ (assembleBucket gs touch).edges) :
    (gridAt gs e.1).dim = (gridAt gs e.2).dim + 1 ∧
    (gridAt gs e.1).dim ≠ (gridAt gs e.2).dim := by
  have h := (List.mem_filter.mp he).2
  rcases Bool.and_eq_true_iff.mp h with ⟨hd, _⟩
  have hdim := of_decide_eq_true hd
  exact ⟨hdim, by simp [hdim]⟩

/-- C8 witness: a concrete two-grid bucket; its single edge connects the
dimension-2 grid to the dimension-1 grid, and their dimensions differ. -/
theorem bucket_edges_adjacent_dims_witness :
    ((0, 1) ∈ (assembleBucket [Grid.mk 2 4, Grid.mk 1 2] (fun _ _ => true)).edges) ∧
    ((gridAt [Grid.mk 2 4, Grid.mk 1 2] 0).dim = (gridAt [Grid.mk 2 4, Grid.mk 1 2] 1).dim + 1 ∧
      (gridAt [Grid.mk 2 4, Grid.mk 1 2] 0).dim ≠ (gridAt [Grid.mk 2 4, Grid.mk 1 2] 1).dim) :=
  ⟨by decide, bucket_edges_adjacent_dims [Grid.mk 2 4, Grid.mk 1 2] (fun _ _ => true) (0, 1)
    (by decide)⟩

/-- C2: when `network.mesh` runs with its default (validation on: `meshDefault`
is, by definition, `mesh` with `ensure_matching_face_cell = true`, so skipping
validation needs the explicit caller-visible `false`), every produced bucket
satisfies the face/cell match validation: every bordered pair of grids of
adjacent dimension has at least one matching face. -/
theorem mesh_default_validates_matching (gs : List Grid) (touch : ℕ → ℕ → Bool)
    (m : ℕ → ℕ → ℕ) (gb : GridBucket) (h : meshDefault gs touch m = some gb) :
    (∀ i j, i < gs.length → j < gs.length →
      (gridAt gs i).dim = (gridAt gs j).dim + 1 → touch i j = true → 1 ≤ m i j) ∧
    meshDefault gs touch m = mesh gs touch m true := by
  refine ⟨?_, rfl⟩
  intro i j hi hj hdim htouch
  simp only [meshDefault, mesh] at h
  split at h
  · exact absurd h (by simp)
  · rename_i hc
    have hvalid : matchingValid gs touch m = true := by
      by_contra hv
      exact hc (by simp [Bool.not_eq_true] at hv ⊢; simp [hv])
    have hmem : (i, j) ∈ listProd (List.range gs.length) (List.range gs.length) :=
      mem_listProd (List.mem_range.mpr hi) (List.mem_range.mpr hj)
    have hp := List.all_eq_true.mp hvalid _ hmem
    simp only [hdim, htouch, decide_eq_true_eq, Bool.and_eq_true, decide_eq_true_eq,
      Bool.or_eq_true, Bool.not_eq_true] at hp
    rcases hp with hp | hp
    · simp [hdim, htouch] at hp
    · exact hp

/-- C2 witness: a concrete two-grid configuration on which the default
(validating) mesh call succeeds; the produced bucket's bordered adjacent pair
indeed has a positive match count. -/
theorem mesh_default_validates_matching_witness :
    (meshDefault [Grid.mk 2 4, Grid.mk 1 2] (fun _ _ => true) (fun _ _ => 1) =
      some (GridBucket.mk [Grid.mk 2 4, Grid.mk 1 2] [(0, 1)])) ∧
    ((∀ i j, i < ([Grid.mk 2 4, Grid.mk 1 2] : List Grid).length →
        j < ([Grid.mk 2 4, Grid.mk 1 2] : List Grid).length →
        (gridAt [Grid.mk 2 4, Grid.mk 1 2] i).dim = (gridAt [Grid.mk 2 4, Grid.mk 1 2] j).dim + 1 →
        (fun (_ _ : ℕ) => true) i j = true → 1 ≤ (fun (_ _ : ℕ) => 1) i j) ∧
      meshDefault [Grid.mk 2 4, Grid.mk 1 2] (fun _ _ => true) (fun _ _ => 1) =
        mesh [Grid.mk 2 4, Grid.mk 1 2] (fun _ _ => true) (fun _ _ => 1) true) :=
  ⟨by decide, mesh_default_validates_matching [Grid.mk 2 4, Grid.mk 1 2] (fun _ _ => true)
    (fun _ _ => 1) (GridBucket.mk [Grid.mk 2 4, Grid.mk 1 2] [(0, 1)]) (by decide)⟩

/-- C10: `EllipticFracture` approximates the ellipse by a polygon with exactly
`num_points` vertices, and with exactly 16 vertices when the optional
`num_points` argument is left out. -/
theorem elliptic_fracture_vertex_count :
    (∀ center major minor majorAxisAngle strikeAngle dipAngle,
      (EllipticFractureDefault center major minor majorAxisAngle strikeAngle dipAngle).length
        = 16) ∧
    (∀ center major minor majorAxisAngle strikeAngle dipAngle n,
      (EllipticFracture center major minor majorAxisAngle strikeAngle dipAngle n).length = n) := by
  constructor
  · intro center major minor majorAxisAngle strikeAngle dipAngle
    simp only [EllipticFractureDefault, EllipticFracture, List.length_map, List.length_range]
  · intro center major minor majorAxisAngle strikeAngle dipAngle n
    simp only [EllipticFracture, List.length_map, List.length_range]

/-- Helper: the final classification step never emits a segment of squared
length at most `tol ^ 2`. -/
theorem classifySeg_segment_long {tol : ℚ} {uv : Option (Point3 × Point3)} {a b : Point3}
    (h : classifySeg tol uv = IntersectGeom.segment a b) : tol ^ 2 < dist2 a b := by
  rcases uv with _ | ⟨u, v⟩
  · simp [classifySeg] at h
  · by_cases hlen : dist2 u v ≤ tol ^ 2
    · simp [classifySeg, hlen] at h
    · simp only [classifySeg, hlen, if_false, IntersectGeom.segment.injEq] at h
      rw [← h.1, ← h.2]
      exact lt_of_not_le hlen

/-- C7: a near-tangential configuration is always resolved deterministically as
a point: whenever the IntersectionFinder reports a segment intersection, that
segment's squared length strictly exceeds `tol ^ 2`; equivalently, a computed
crossing chord of length at most the tolerance is reported as a point
intersection, never as a segment. -/
theorem finder_segments_exceed_tolerance (tol : ℚ) (P Q : Polygon) (a b : Point3)
    (h : intersectPolygons tol P Q = IntersectGeom.segment a b) : tol ^ 2 < dist2 a b := by
  unfold intersectPolygons at h
  split_ifs at h <;>
    first
      | exact classifySeg_segment_long h
      | simp at h

/-- C7 witness: two concrete squares crossing in a segment of length 2, far
above the tolerance 1/100; the finder reports that segment, and its squared
length exceeds the squared tolerance. -/
theorem finder_segments_exceed_tolerance_witness :
    (intersectPolygons (1 / 100) [(0, 0, 0), (4, 0, 0), (4, 4, 0), (0, 4, 0)]
        [(1, 1, -1), (3, 1, -1), (3, 1, 1), (1, 1, 1)] =
      IntersectGeom.segment (3, 1, 0) (1, 1, 0)) ∧
    (1 / 100 : ℚ) ^ 2 < dist2 (3, 1, 0) (1, 1, 0) := by
  have h : intersectPolygons (1 / 100) [(0, 0, 0), (4, 0, 0), (4, 4, 0), (0, 4, 0)]
      [(1, 1, -1), (3, 1, -1), (3, 1, 1), (1, 1, 1)] =
        IntersectGeom.segment (3, 1, 0) (1, 1, 0) := by
    norm_num [intersectPolygons, classifySeg, clipToPoly, chordOf, onPlaneVertices,
      edgeCrossings, cyclicEdges, farthestFrom, clipHalf, inwardNormal, polyNormal,
      polyBase, signedDist, dot3, cross3, vsub, vadd, smul3, dist2, List.filterMap_cons,
      List.foldl_cons, List.foldl_nil, List.filter_cons, List.zip_cons_cons]
  exact ⟨h, finder_segments_exceed_tolerance (1 / 100)
    [(0, 0, 0), (4, 0, 0), (4, 4, 0), (0, 4, 0)]
    [(1, 1, -1), (3, 1, -1), (3, 1, 1), (1, 1, 1)] (3, 1, 0) (1, 1, 0) h⟩

/-- C9: in a bucket produced by `cart_grid` on a 2d domain (fracture crossings
are isolated points by construction of the intersection finder), every
dimension-0 grid has exactly one cell, so the assertion of
`IntersectionDomain.source` (`self.grid().num_cells == 1`) never fires. -/
theorem cart_grid_point_grids_single_cell (fracs : List Segment2) (nx ny : ℕ)
    (g : Grid) (hg : g ∈ (cart_grid fracs nx ny).grids) (h0 : g.dim = 0) :
    g.num_cells = 1 := by
  simp only [cart_grid, bucket2d, assembleBucket, List.mem_cons, List.mem_append,
    List.mem_map] at hg
  rcases hg with h | h
  · rw [h] at h0
    simp at h0
  · rcases h with ⟨s, _, h⟩ | ⟨p, _, h⟩
    · rw [← h] at h0
      simp at h0
    · rw [← h]

/-- C9 witness: the two unit-square fractures of the example notebook
(horizontal at y = 1/2, vertical at x = 1/2) cross at (1/2, 1/2); the resulting
dimension-0 grid is in the bucket of `cart_grid` with 12x12 cells and has
exactly one cell. -/
theorem cart_grid_point_grids_single_cell_witness :
    ((Grid.mk 0 1 ∈ (cart_grid [((0, 1 / 2), (1, 1 / 2)), ((1 / 2, 0), (1 / 2, 1))] 12 12).grids)
      ∧ (Grid.mk 0 1).dim = 0) ∧ (Grid.mk 0 1).num_cells = 1 := by
  have hmem : Grid.mk 0 1 ∈
      (cart_grid [((0, 1 / 2), (1, 1 / 2)), ((1 / 2, 0), (1 / 2, 1))] 12 12).grids := by
    norm_num [cart_grid, bucket2d, assembleBucket, properIntersectionPoints, allPairs,
      segmentIntersection, sub2, cross2, List.filterMap_cons, List.dedup_cons_of_not_mem,
      List.dedup_nil]
  exact ⟨⟨hmem, rfl⟩, cart_grid_point_grids_single_cell
    [((0, 1 / 2), (1, 1 / 2)), ((1 / 2, 0), (1 / 2, 1))] 12 12 (Grid.mk 0 1) hmem rfl⟩

/-- C3: the 2d tutorial scenario: the fracture network built from the segments
(0,0)-(0,2) and (1,0)-(1,1) in the box [-2,3]x[-2,3] meshes into a GridBucket
with exactly one dimension-2 matrix grid, one dimension-1 grid for each of the
two fractures, zero intersection points between the fractures (the segments do
not cross), and zero dimension-0 grids, whatever cell count the external mesher
produces for the matrix. -/
theorem two_fracture_scenario_counts (matrixCells : ℕ) :
    ((meshNetwork2d [(0, 0), (0, 2), (1, 0), (1, 1)] [(0, 1), (2, 3)]
        (Domain2d.mk (-2) 3 (-2) 3) matrixCells).grids.filter
          (fun g => decide (g.dim = 2))).length = 1 ∧
    ((meshNetwork2d [(0, 0), (0, 2), (1, 0), (1, 1)] [(0, 1), (2, 3)]
        (Domain2d.mk (-2) 3 (-2) 3) matrixCells).grids.filter
          (fun g => decide (g.dim = 1))).length = 2 ∧
    properIntersectionPoints
      (segmentsOfPointData [(0, 0), (0, 2), (1, 0), (1, 1)] [(0, 1), (2, 3)]) = [] ∧
    ((meshNetwork2d [(0, 0), (0, 2), (1, 0), (1, 1)] [(0, 1), (2, 3)]
        (Domain2d.mk (-2) 3 (-2) 3) matrixCells).grids.filter
          (fun g => decide (g.dim = 0))).length = 0 := by
  refine ⟨?_, ?_, ?_, ?_⟩ <;>
    norm_num [meshNetwork2d, bucket2d, assembleBucket, segmentsOfPointData,
      properIntersectionPoints, allPairs, segmentIntersection, sub2, cross2, List.filter]

/-! ### Lemmas about the splitter subdivision -/

theorem lineEval_negLine (l : SplitLine) (p : Plane) : lineEval (negLine l) p = -lineEval l p := by
  simp only [lineEval, negLine]
  ring

theorem sideLE_eq_sideGE_negLine (l : SplitLine) : sideLE l = sideGE (negLine l) := by
  ext p
  simp [sideLE, sideGE, lineEval_negLine]

theorem sideLT_eq_sideGT_negLine (l : SplitLine) : sideLT l = sideGT (negLine l) := by
  ext p
  simp [sideLT, sideGT, lineEval_negLine]

theorem negLine_nondeg {l : SplitLine} (h : l.Nondeg) : (negLine l).Nondeg := by
  rcases h with h | h
  · exact Or.inl (by simp [negLine, h])
  · exact Or.inr (by simp [negLine, h])

theorem interior_sideGE_subset {l : SplitLine} (h : l.Nondeg) :
    interior (sideGE l) ⊆ sideGT l := by
  intro p hp
  rw [mem_interior_iff_mem_nhds] at hp
  rcases Metric.mem_nhds_iff.mp hp with ⟨ε, hε, hball⟩
  have hvne : ((l.a, l.b) : Plane) ≠ 0 := by
    intro hv0
    rw [Prod.mk_eq_zero] at hv0
    rcases h with h | h
    · exact h hv0.1
    · exact h hv0.2
  have hvnorm : 0 < ‖((l.a, l.b) : Plane)‖ := norm_pos_iff.mpr hvne
  have hδpos : 0 < ε / (2 * ‖((l.a, l.b) : Plane)‖) := by positivity
  have hq : p - (ε / (2 * ‖((l.a, l.b) : Plane)‖)) • ((l.a, l.b) : Plane) ∈ Metric.ball p ε := by
    rw [Metric.mem_ball, dist_eq_norm, sub_sub_cancel_left, norm_neg, norm_smul,
      Real.norm_eq_abs, abs_of_pos hδpos]
    have hne : ‖((l.a, l.b) : Plane)‖ ≠ 0 := ne_of_gt hvnorm
    have heq : ε / (2 * ‖((l.a, l.b) : Plane)‖) * ‖((l.a, l.b) : Plane)‖ = ε / 2 := by
      field_simp
      ring
    rw [heq]
    linarith
  have hqin : 0 ≤ lineEval l (p - (ε / (2 * ‖((l.a, l.b) : Plane)‖)) • ((l.a, l.b) : Plane)) :=
    hball hq
  have heval : lineEval l (p - (ε / (2 * ‖((l.a, l.b) : Plane)‖)) • ((l.a, l.b) : Plane))
      = lineEval l p - (ε / (2 * ‖((l.a, l.b) : Plane)‖)) * (l.a ^ 2 + l.b ^ 2) := by
    simp only [lineEval, Prod.fst_sub, Prod.snd_sub, Prod.smul_fst, Prod.smul_snd,
      smul_eq_mul]
    ring
  have hsq : 0 < l.a ^ 2 + l.b ^ 2 := by
    rcases h with h | h
    · have : 0 < l.a ^ 2 := by positivity
      nlinarith [sq_nonneg l.b]
    · have : 0 < l.b ^ 2 := by positivity
      nlinarith [sq_nonneg l.a]
  have hprod : 0 < (ε / (2 * ‖((l.a, l.b) : Plane)‖)) * (l.a ^ 2 + l.b ^ 2) := by positivity
  rw [heval] at hqin
  show 0 < lineEval l p
  linarith

theorem interior_sideLE_subset {l : SplitLine} (h : l.Nondeg) :
    interior (sideLE l) ⊆ sideLT l := by
  rw [sideLE_eq_sideGE_negLine, sideLT_eq_sideGT_negLine]
  exact interior_sideGE_subset (negLine_nondeg h)

theorem length_openCells_eq_splitCells (U P : Set Plane) (L : List SplitLine) :
    (openCells U L).length = (splitCells P L).length := by
  induction L with
  | nil => rfl
  | cons l L ih => simp [openCells, splitCells, ih]

theorem map_fst_cellPairs (P U : Set Plane) (L : List SplitLine) :
    (cellPairs P U L).map Prod.fst = splitCells P L := by
  induction L with
  | nil => rfl
  | cons l L ih =>
    simp only [cellPairs, splitCells, List.map_append, List.map_map, ← ih, Function.comp_def]

theorem map_snd_cellPairs (P U : Set Plane) (L : List SplitLine) :
    (cellPairs P U L).map Prod.snd = openCells U L := by
  induction L with
  | nil => rfl
  | cons l L ih =>
    simp only [cellPairs, openCells, List.map_append, List.map_map, ← ih, Function.comp_def]

theorem cellPairs_interior_subset (P : Set Plane) (L : List SplitLine)
    (hL : ∀ l ∈ L, l.Nondeg) :
    ∀ q ∈ cellPairs P Set.univ L, interior q.1 ⊆ q.2 := by
  induction L with
  | nil =>
    intro q hq
    rw [cellPairs, List.mem_singleton] at hq
    subst hq
    exact fun p _ => Set.mem_univ p
  | cons l L ih =>
    intro q hq
    have hl : l.Nondeg := hL l (List.mem_cons_self _ _)
    have hL' : ∀ x ∈ L, x.Nondeg := fun x hx => hL x (List.mem_cons_of_mem _ hx)
    rw [cellPairs, List.mem_append] at hq
    rcases hq with hq | hq <;> rcases List.mem_map.mp hq with ⟨C, hC, rfl⟩ <;>
      intro p hp <;> rw [interior_inter] at hp
    · exact ⟨ih hL' C hC hp.1, interior_sideGE_subset hl hp.2⟩
    · exact ⟨ih hL' C hC hp.1, interior_sideLE_subset hl hp.2⟩

theorem cellPairs_snd_pairwise_disjoint (P U : Set Plane) (L : List SplitLine) :
    (cellPairs P U L).Pairwise (fun x y => Disjoint x.2 y.2) := by
  induction L with
  | nil => simp [cellPairs]
  | cons l L ih =>
    rw [cellPairs, List.pairwise_append]
    refine ⟨?_, ?_, ?_⟩
    · rw [List.pairwise_map]
      exact ih.imp (fun h => Disjoint.mono Set.inter_subset_left Set.inter_subset_left h)
    · rw [List.pairwise_map]
      exact ih.imp (fun h => Disjoint.mono Set.inter_subset_left Set.inter_subset_left h)
    · intro x hx y hy
      rcases List.mem_map.mp hx with ⟨C, _, rfl⟩
      rcases List.mem_map.mp hy with ⟨D, _, rfl⟩
      refine Set.disjoint_left.mpr ?_
      rintro q ⟨_, hq1⟩ ⟨_, hq2⟩
      have h1 : 0 < lineEval l q := hq1
      have h2 : lineEval l q < 0 := hq2
      linarith

theorem cellPairs_avoid_line (P U : Set Plane) (L : List SplitLine) :
    ∀ l ∈ L, ∀ q ∈ cellPairs P U L, q.2 ⊆ {p : Plane | lineEval l p ≠ 0} := by
  induction L with
  | nil =>
    intro l hl
    cases hl
  | cons l₀ L ih =>
    intro l hl q hq
    rw [cellPairs, List.mem_append] at hq
    rcases List.mem_cons.mp hl with hl | hl
    · subst hl
      rcases hq with hq | hq <;> rcases List.mem_map.mp hq with ⟨C, _, rfl⟩ <;>
        intro p hp
      · exact ne_of_gt hp.2
      · exact ne_of_lt hp.2
    · rcases hq with hq | hq <;> rcases List.mem_map.mp hq with ⟨C, hC, rfl⟩ <;>
        intro p hp
      · exact ih l hl C hC hp.1
      · exact ih l hl C hC hp.1

theorem splitCells_cover (P : Set Plane) (L : List SplitLine) (p : Plane) (hp : p ∈ P) :
    ∃ s ∈ splitCells P L, p ∈ s := by
  induction L with
  | nil => exact ⟨P, List.mem_singleton_self P, hp⟩
  | cons l L ih =>
    rcases ih with ⟨s, hs, hmem⟩
    rcases le_total 0 (lineEval l p) with h0 | h0
    · exact ⟨s ∩ sideGE l, List.mem_append_left _ (List.mem_map_of_mem _ hs), hmem, h0⟩
    · exact ⟨s ∩ sideLE l, List.mem_append_right _ (List.mem_map_of_mem _ hs), hmem, h0⟩

theorem splitCells_shared_boundary (P : Set Plane) (L : List SplitLine) :
    ∀ l ∈ L, ∀ p ∈ P, lineEval l p = 0 →
      ∃ s ∈ splitCells P L, ∃ t ∈ splitCells P L,
        p ∈ s ∧ p ∈ t ∧ s ⊆ sideGE l ∧ t ⊆ sideLE l := by
  induction L with
  | nil =>
    intro l hl
    cases hl
  | cons l₀ L ih =>
    intro l hl p hp h0
    rcases List.mem_cons.mp hl with hl | hl
    · subst hl
      rcases splitCells_cover P L p hp with ⟨C, hC, hmem⟩
      refine ⟨C ∩ sideGE l, List.mem_append_left _ (List.mem_map_of_mem _ hC),
        C ∩ sideLE l, List.mem_append_right _ (List.mem_map_of_mem _ hC),
        ⟨hmem, le_of_eq h0.symm⟩, ⟨hmem, le_of_eq h0⟩,
        Set.inter_subset_right, Set.inter_subset_right⟩
    · rcases ih l hl p hp h0 with ⟨s, hs, t, ht, hps, hpt, hsub1, hsub2⟩
      rcases le_total 0 (lineEval l₀ p) with hside | hside
      · exact ⟨s ∩ sideGE l₀, List.mem_append_left _ (List.mem_map_of_mem _ hs),
          t ∩ sideGE l₀, List.mem_append_left _ (List.mem_map_of_mem _ ht),
          ⟨hps, hside⟩, ⟨hpt, hside⟩,
          Set.Subset.trans Set.inter_subset_left hsub1,
          Set.Subset.trans Set.inter_subset_left hsub2⟩
      · exact ⟨s ∩ sideLE l₀, List.mem_append_right _ (List.mem_map_of_mem _ hs),
          t ∩ sideLE l₀, List.mem_append_right _ (List.mem_map_of_mem _ ht),
          ⟨hps, hside⟩, ⟨hpt, hside⟩,
          Set.Subset.trans Set.inter_subset_left hsub1,
          Set.Subset.trans Set.inter_subset_left hsub2⟩

/-! ### Measure lemmas for area preservation -/

theorem measurable_lineEval (l : SplitLine) : Measurable (lineEval l) :=
  ((measurable_fst.const_mul l.a).add (measurable_snd.const_mul l.b)).add_const l.c

theorem measurableSet_sideGE (l : SplitLine) : MeasurableSet (sideGE l) :=
  measurableSet_le measurable_const (measurable_lineEval l)

theorem measurableSet_sideLE (l : SplitLine) : MeasurableSet (sideLE l) :=
  measurableSet_le (measurable_lineEval l) measurable_const

theorem splitCells_measurable (P : Set Plane) (hP : MeasurableSet P) (L : List SplitLine) :
    ∀ C ∈ splitCells P L, MeasurableSet C := by
  induction L with
  | nil =>
    intro C hC
    rw [splitCells, List.mem_singleton] at hC
    subst hC
    exact hP
  | cons l L ih =>
    intro C hC
    rw [splitCells, List.mem_append] at hC
    rcases hC with hC | hC <;> rcases List.mem_map.mp hC with ⟨D, hD, rfl⟩
    · exact (ih D hD).inter (measurableSet_sideGE l)
    · exact (ih D hD).inter (measurableSet_sideLE l)

theorem volume_lineZero {l : SplitLine} (h : l.Nondeg) :
    MeasureTheory.volume (lineZero l) = 0 := by
  classical
  have hφapp : ∀ p : Plane,
      (l.a • LinearMap.fst ℝ ℝ ℝ + l.b • LinearMap.snd ℝ ℝ ℝ) p = l.a * p.1 + l.b * p.2 := by
    intro p
    simp [LinearMap.add_apply, LinearMap.smul_apply, LinearMap.fst_apply, LinearMap.snd_apply,
      smul_eq_mul]
  obtain ⟨p₀, hp₀⟩ : ∃ p₀ : Plane, l.a * p₀.1 + l.b * p₀.2 = -l.c := by
    rcases h with ha | hb
    · refine ⟨(-l.c / l.a, 0), ?_⟩
      field_simp
      ring
    · refine ⟨(0, -l.c / l.b), ?_⟩
      field_simp
      ring
  have hker : LinearMap.ker (l.a • LinearMap.fst ℝ ℝ ℝ + l.b • LinearMap.snd ℝ ℝ ℝ) ≠ ⊤ := by
    intro htop
    rcases h with ha | hb
    · have h1 : ((1, 0) : Plane) ∈
          LinearMap.ker (l.a • LinearMap.fst ℝ ℝ ℝ + l.b • LinearMap.snd ℝ ℝ ℝ) := by
        rw [htop]
        trivial
      have h2 := LinearMap.mem_ker.mp h1
      rw [hφapp] at h2
      simp at h2
      exact ha h2
    · have h1 : ((0, 1) : Plane) ∈
          LinearMap.ker (l.a • LinearMap.fst ℝ ℝ ℝ + l.b • LinearMap.snd ℝ ℝ ℝ) := by
        rw [htop]
        trivial
      have h2 := LinearMap.mem_ker.mp h1
      rw [hφapp] at h2
      simp at h2
      exact hb h2
  have hset : lineZero l = Set.preimage (fun x : Plane => -p₀ + x)
      ((LinearMap.ker (l.a • LinearMap.fst ℝ ℝ ℝ + l.b • LinearMap.snd ℝ ℝ ℝ) : Set Plane)) := by
    ext p
    simp only [lineZero, Set.mem_setOf_eq, Set.mem_preimage, SetLike.mem_coe,
      LinearMap.mem_ker, hφapp, Prod.fst_add, Prod.snd_add, Prod.fst_neg, Prod.snd_neg,
      lineEval]
    constructor
    · intro hp
      linarith [hp₀]
    · intro hp
      linarith [hp₀]
  rw [hset, MeasureTheory.measure_preimage_add]
  exact MeasureTheory.Measure.addHaar_submodule MeasureTheory.volume _ hker

theorem volume_piece_split {C : Set Plane} (hC : MeasurableSet C) {l : SplitLine}
    (hl : l.Nondeg) :
    MeasureTheory.volume (C ∩ sideGE l) + MeasureTheory.volume (C ∩ sideLE l)
      = MeasureTheory.volume C := by
  have hu : (C ∩ sideGE l) ∪ (C ∩ sideLE l) = C := by
    ext p
    constructor
    · rintro (⟨h, _⟩ | ⟨h, _⟩) <;> exact h
    · intro hp
      rcases le_total 0 (lineEval l p) with h | h
      · exact Or.inl ⟨hp, h⟩
      · exact Or.inr ⟨hp, h⟩
  have hsub : (C ∩ sideGE l) ∩ (C ∩ sideLE l) ⊆ lineZero l := by
    rintro p ⟨⟨_, h1⟩, ⟨_, h2⟩⟩
    exact le_antisymm h2 h1
  have hz : MeasureTheory.volume ((C ∩ sideGE l) ∩ (C ∩ sideLE l)) = 0 :=
    MeasureTheory.measure_mono_null hsub (volume_lineZero hl)
  have key : MeasureTheory.volume ((C ∩ sideGE l) ∪ (C ∩ sideLE l))
      + MeasureTheory.volume ((C ∩ sideGE l) ∩ (C ∩ sideLE l))
      = MeasureTheory.volume (C ∩ sideGE l) + MeasureTheory.volume (C ∩ sideLE l) :=
    MeasureTheory.measure_union_add_inter _ (hC.inter (measurableSet_sideLE l))
  rw [hu, hz, add_zero] at key
  exact key.symm

theorem sum_volume_pieces {l : SplitLine} (hl : l.Nondeg) :
    ∀ cs : List (Set Plane), (∀ C ∈ cs, MeasurableSet C) →
      ((cs.map (fun C => MeasureTheory.volume (C ∩ sideGE l))).sum
        + (cs.map (fun C => MeasureTheory.volume (C ∩ sideLE l))).sum)
        = (cs.map (fun C => MeasureTheory.volume C)).sum := by
  intro cs
  induction cs with
  | nil => simp
  | cons C cs ih =>
    intro hmeas
    simp only [List.map_cons, List.sum_cons]
    rw [add_add_add_comm, volume_piece_split (hmeas C (List.mem_cons_self _ _)) hl,
      ih (fun D hD => hmeas D (List.mem_cons_of_mem _ hD))]

/-! ### Claim theorems: the PolygonSplitter -/

/-- C1: the PolygonSplitter's no-overlap postcondition in the plane of a
polygon `P`: splitting along nondegenerate constraint lines yields children
whose interiors are pairwise disjoint; every point of `P` on an intersection
curve lies in a child on each closed side of that curve (the curve is shared
boundary between the flanking children, never interior to a child); and any
other polygon whose footprint in this plane lies on one of the constraint lines
(the generic position of a second, non-coplanar parent: its plane meets this
one exactly in the intersection line) meets no child's interior. -/
theorem split_intersections_no_overlap (P : Set Plane) (L : List SplitLine)
    (hL : ∀ l ∈ L, l.Nondeg) :
    (splitCells P L).Pairwise (fun s t => Disjoint (interior s) (interior t)) ∧
    (∀ l ∈ L, ∀ p ∈ P, lineEval l p = 0 →
      ∃ s ∈ splitCells P L, ∃ t ∈ splitCells P L,
        p ∈ s ∧ p ∈ t ∧ s ⊆ sideGE l ∧ t ⊆ sideLE l) ∧
    (∀ l ∈ L, ∀ S ⊆ lineZero l, ∀ s ∈ splitCells P L, Disjoint (interior s) S) := by
  refine ⟨?_, splitCells_shared_boundary P L, ?_⟩
  · have hpair : (cellPairs P Set.univ L).Pairwise
        (fun x y => Disjoint (interior x.1) (interior y.1)) := by
      refine List.Pairwise.imp_of_mem ?_ (cellPairs_snd_pairwise_disjoint P Set.univ L)
      intro x y hx hy hdisj
      exact Disjoint.mono (cellPairs_interior_subset P L hL x hx)
        (cellPairs_interior_subset P L hL y hy) hdisj
    rw [← map_fst_cellPairs P Set.univ L, List.pairwise_map]
    exact hpair
  · intro l hl S hS s hs
    rw [← map_fst_cellPairs P Set.univ L] at hs
    rcases List.mem_map.mp hs with ⟨q, hq, rfl⟩
    refine Set.disjoint_left.mpr ?_
    intro p hpI hpS
    exact cellPairs_avoid_line P Set.univ L l hl q hq
      (cellPairs_interior_subset P L hL q hq hpI) (hS hpS)

/-- C1 witness: the unit square split along the single vertical constraint line
x = 1/2. -/
theorem split_intersections_no_overlap_witness :
    (∀ l ∈ [SplitLine.mk (1 : ℝ) 0 (-(1 / 2))], l.Nondeg) ∧
    ((splitCells (Set.Icc (0 : ℝ) 1 ×ˢ Set.Icc (0 : ℝ) 1)
        [SplitLine.mk (1 : ℝ) 0 (-(1 / 2))]).Pairwise
      (fun s t => Disjoint (interior s) (interior t)) ∧
    (∀ l ∈ [SplitLine.mk (1 : ℝ) 0 (-(1 / 2))],
      ∀ p ∈ Set.Icc (0 : ℝ) 1 ×ˢ Set.Icc (0 : ℝ) 1, lineEval l p = 0 →
      ∃ s ∈ splitCells (Set.Icc (0 : ℝ) 1 ×ˢ Set.Icc (0 : ℝ) 1)
          [SplitLine.mk (1 : ℝ) 0 (-(1 / 2))],
        ∃ t ∈ splitCells (Set.Icc (0 : ℝ) 1 ×ˢ Set.Icc (0 : ℝ) 1)
          [SplitLine.mk (1 : ℝ) 0 (-(1 / 2))],
          p ∈ s ∧ p ∈ t ∧ s ⊆ sideGE l ∧ t ⊆ sideLE l) ∧
    (∀ l ∈ [SplitLine.mk (1 : ℝ) 0 (-(1 / 2))], ∀ S ⊆ lineZero l,
      ∀ s ∈ splitCells (Set.Icc (0 : ℝ) 1 ×ˢ Set.Icc (0 : ℝ) 1)
        [SplitLine.mk (1 : ℝ) 0 (-(1 / 2))], Disjoint (interior s) S)) := by
  have hL : ∀ l ∈ [SplitLine.mk (1 : ℝ) 0 (-(1 / 2))], l.Nondeg := by
    intro l hl
    rw [List.mem_singleton] at hl
    subst hl
    exact Or.inl one_ne_zero
  exact ⟨hL, split_intersections_no_overlap (Set.Icc (0 : ℝ) 1 ×ˢ Set.Icc (0 : ℝ) 1)
    [SplitLine.mk (1 : ℝ) 0 (-(1 / 2))] hL⟩

/-- C4: area preservation of the PolygonSplitter: for a measurable polygon `P`
split along nondegenerate constraint lines, the areas of the children sum to
the area of `P` exactly (so in particular within any relative tolerance scaling
with the network tolerance). -/
theorem split_intersections_area_preserved (P : Set Plane) (L : List SplitLine)
    (hP : MeasurableSet P) (hL : ∀ l ∈ L, l.Nondeg) :
    ((splitCells P L).map (fun C => MeasureTheory.volume C)).sum
      = MeasureTheory.volume P := by
  induction L with
  | nil => simp [splitCells]
  | cons l L ih =>
    have hl : l.Nondeg := hL l (List.mem_cons_self _ _)
    have hL' : ∀ x ∈ L, x.Nondeg := fun x hx => hL x (List.mem_cons_of_mem _ hx)
    rw [splitCells, List.map_append, List.sum_append, List.map_map, List.map_map]
    simp only [Function.comp_def]
    rw [sum_volume_pieces hl (splitCells P L) (splitCells_measurable P hP L)]
    exact ih hL'

/-- C4 witness: the unit square split along the vertical line x = 1/2; the
hypotheses (measurability, nondegeneracy) hold for this concrete input, so the
children's areas sum to the square's area. -/
theorem split_intersections_area_preserved_witness :
    MeasurableSet (Set.Icc (0 : ℝ) 1 ×ˢ Set.Icc (0 : ℝ) 1) ∧
    (∀ l ∈ [SplitLine.mk (1 : ℝ) 0 (-(1 / 2))], l.Nondeg) ∧
    ((splitCells (Set.Icc (0 : ℝ) 1 ×ˢ Set.Icc (0 : ℝ) 1)
        [SplitLine.mk (1 : ℝ) 0 (-(1 / 2))]).map
      (fun C => MeasureTheory.volume C)).sum
      = MeasureTheory.volume (Set.Icc (0 : ℝ) 1 ×ˢ Set.Icc (0 : ℝ) 1) := by
  have hP : MeasurableSet (Set.Icc (0 : ℝ) 1 ×ˢ Set.Icc (0 : ℝ) 1) :=
    measurableSet_Icc.prod measurableSet_Icc
  have hL : ∀ l ∈ [SplitLine.mk (1 : ℝ) 0 (-(1 / 2))], l.Nondeg := by
    intro l hl
    rw [List.mem_singleton] at hl
    subst hl
    exact Or.inl one_ne_zero
  exact ⟨hP, hL, split_intersections_area_preserved (Set.Icc (0 : ℝ) 1 ×ˢ Set.Icc (0 : ℝ) 1)
    [SplitLine.mk (1 : ℝ) 0 (-(1 / 2))] hP hL⟩

end PorePy
